import Mathlib

/-!
Verification of the daily finance mailer script (`daily_finance_mail.py`).

The script is a linear orchestration: load the topic history from a JSON
file, ask a generative model for the next topic (returned as JSON wrapped
in optional markdown fences), optionally render a chart through an HTTP
service, compose an HTML document, send it over SMTP, and append the new
topic to the history file.

Python strings are modelled as `List Char` for the character-level
operations (`strip`, `startswith`, `endswith`, slicing, `split`), and as
Lean `String` where the script only concatenates.  External collaborators
(the generative model, the JSON parser/serializer, the chart HTTP call and
the SMTP transport) are parameters: a call that may raise is modelled with
`Option`/`Except`, `none`/`error` standing for the raised exception.
-/

set_option maxRecDepth 40000

namespace DailyFinanceMail

/-! ### Python string primitives over `List Char` -/

/-- Python `s.startswith(p)` on character lists. -/
def isPrefixList : List Char → List Char → Bool
  | [], _ => true
  | _ :: _, [] => false
  | a :: as, b :: bs => a == b && isPrefixList as bs

/-- Python `s.endswith(p)` on character lists. -/
def endsWithList (p s : List Char) : Bool :=
  isPrefixList p.reverse s.reverse

/-- Does `p` occur as a contiguous substring of `s`?  (Used to state that a
composed document contains no `<img` tag.) -/
def hasSub (p : List Char) : List Char → Bool
  | [] => isPrefixList p []
  | c :: cs => isPrefixList p (c :: cs) || hasSub p cs

/-- Python `s.strip()`: remove leading and trailing whitespace. -/
def pystrip (s : List Char) : List Char :=
  ((s.dropWhile Char.isWhitespace).reverse.dropWhile Char.isWhitespace).reverse

/-- Python `s.split(',')`: split at every comma, keeping empty pieces;
the empty string yields `[""]`. -/
def splitOnComma : List Char → List (List Char)
  | [] => [[]]
  | c :: cs =>
    if c = ',' then [] :: splitOnComma cs
    else
      match splitOnComma cs with
      | [] => [[c]]
      | h :: t => (c :: h) :: t

/-- Python `sep.join(xs)`. -/
def pyJoin (sep : String) : List String → String
  | [] => ""
  | [x] => x
  | x :: xs => x ++ sep ++ pyJoin sep xs

/-- Python f-string interpolation of a value that may be `None`:
`f"{x}"` renders `None` as the text `"None"`. -/
def pyStr : Option String → String
  | some s => s
  | none => "None"

/-! ### Data model -/

/-- One record of the persisted history: `{"date": "YYYY-MM-DD", "topic": t}`. -/
structure TopicRecord where
  date : String
  topic : String
deriving DecidableEq

/-- The persisted history: an ordered list of topic records. -/
abbrev History := List TopicRecord

/-- The `chart_config` object produced by the model; the script never
inspects it, only forwards it, so it is modelled as its JSON text. -/
abbrev ChartConfig := String

/-- The parsed JSON object returned by the model.  The script reads the
keys `topic`, `subject`, `html_body` and `chart_config`, each of which may
be absent (`dict.get`). -/
structure ContentData where
  topic : Option String
  subject : Option String
  html_body : Option String
  chart_config : Option ChartConfig
deriving DecidableEq

/-! ### History store (`load_history`, `save_history`) -/

/-- `load_history()`: if the history file is absent (`store = none`)
return `[]`; otherwise `json.load` it, and on a `JSONDecodeError`
(modelled by `parseHistory` returning `none`) return `[]`.  The function
is total: it never raises. -/
def load_history (parseHistory : String → Option History)
    (store : Option String) : History :=
  match store with
  | none => []
  | some content =>
    match parseHistory content with
    | some h => h
    | none => []

/-- `save_history(topic, history)`: append
`{"date": datetime.now().strftime("%Y-%m-%d"), "topic": topic}` and dump
the whole list back to the file.  `today` stands for the formatted current
date and `serializeHistory` for `json.dump`; the returned pair is the new
in-memory history and the new file content. -/
def save_history (serializeHistory : History → String)
    (today : String) (topic : String) (history : History) :
    History × String :=
  let history := history ++ [⟨today, topic⟩]
  (history, serializeHistory history)

/-! ### Content normalizer (`clean_json_response`) -/

/-- The three-backtick fence marker. -/
def fenceChars : List Char := ['\x60', '\x60', '\x60']

/-- The fence marker tagged `json`. -/
def jsonFenceChars : List Char := fenceChars ++ ['j', 's', 'o', 'n']

/-- `clean_json_response(text)`: strip; drop a leading ```` ```json ````
(7 chars) or else a leading ```` ``` ```` (3 chars); drop a trailing
```` ``` ```` (Python `text[:-3]`, i.e. `take (length - 3)`); strip again. -/
def clean_json_response (text : List Char) : List Char :=
  let text := pystrip text
  let text :=
    if isPrefixList jsonFenceChars text then text.drop 7
    else if isPrefixList fenceChars text then text.drop 3
    else text
  let text :=
    if endsWithList fenceChars text then text.take (text.length - 3)
    else text
  pystrip text

/-! ### Curriculum advisor (`get_content_from_llm`) -/

/-- `get_content_from_llm(past_topics)`.  `mkPrompt last_topic recent_str`
stands for the fixed prompt template (its text is inert data the claims do
not touch); `generate` is the model call, `none` standing for a raised
exception; `parseContent` is `json.loads`, `none` standing for a
`JSONDecodeError`.  Any failure inside the single-model `try` loop lands
in `except: continue`, so the function returns `none` rather than raising. -/
def get_content_from_llm (generate : String → Option String)
    (parseContent : List Char → Option ContentData)
    (mkPrompt : String → String → String)
    (past_topics : History) : Option ContentData :=
  let last_topic :=
    match past_topics.getLast? with
    | some r => r.topic
    | none => "None (This is the very first email)"
  let recent_history_str :=
    pyJoin ", " ((past_topics.drop (past_topics.length - 10)).map TopicRecord.topic)
  match generate (mkPrompt last_topic recent_history_str) with
  | none => none
  | some t => parseContent (clean_json_response t.toList)

/-! ### Chart renderer (`get_chart_url`) -/

/-- The JSON payload POSTed to the chart service. -/
structure ChartPayload where
  chart : ChartConfig
  width : Nat
  height : Nat
  backgroundColor : String
deriving DecidableEq

/-- The payload built by `get_chart_url`. -/
def chartPayload (chart_config : ChartConfig) : ChartPayload :=
  ⟨chart_config, 600, 400, "white"⟩

/-- `get_chart_url(chart_config)`.  `post` models
`requests.post(...).raise_for_status(); response.json().get('url')`:
outer `none` = any raised exception (network error, non-success status,
non-JSON body), `some none` = JSON body without a `url` field.  The bare
`except` maps every failure to `None`; the function never raises. -/
def get_chart_url (post : ChartPayload → Option (Option String))
    (chart_config : ChartConfig) : Option String :=
  match post (chartPayload chart_config) with
  | none => none
  | some u => u

/-! ### Delivery channel (`send_email`) -/

/-- The message and envelope handed to `server.sendmail`. -/
structure SendRequest where
  fromHeader : String
  toHeader : String
  subject : Option String
  body : String
  envelopeFrom : String
  envelopeTo : List String
deriving DecidableEq

/-- `[email.strip() for email in to_email.split(',')]`. -/
def parseRecipients (to_email : String) : List String :=
  (splitOnComma to_email.toList).map (fun cs => String.mk (pystrip cs))

/-- The message `send_email` builds: `msg['From'] = EMAIL_SENDER`,
`msg['To'] = EMAIL_SENDER` (the privacy configuration), the given subject
and HTML body, and `server.sendmail(EMAIL_SENDER, recipient_list, text)`
with `recipient_list` the parsed comma-separated recipients. -/
def mkSendRequest (sender : String) (subject : Option String)
    (html_content : String) (to_email : String) : SendRequest :=
  ⟨sender, sender, subject, html_content, sender, parseRecipients to_email⟩

/-- `send_email(subject, html_content, to_email)`: build the message and
hand it to the SMTP transport.  A transport exception is printed and
re-raised, so the `Except.error` outcome propagates to the caller. -/
def send_email (transport : SendRequest → Except String Unit)
    (sender : String) (subject : Option String)
    (html_content : String) (to_email : String) :
    SendRequest × Except String Unit :=
  let req := mkSendRequest sender subject html_content to_email
  (req, transport req)

/-! ### Message composer (the `final_html` f-string in `main`) -/

/-- The chart block inserted when a chart URL was obtained. -/
def imgBlockHtml (url : String) : String :=
  "<div style=\"text-align:center;\"><img src=\"" ++ url ++
    "\" style=\"max-width:100%; border-radius:8px;\"></div>"

/-- Template text before the interpolated date. -/
def tplA : String :=
  "\n    <html>\n    <body style=\"font-family: sans-serif; max-width: 600px; margin: auto; padding: 20px; line-height: 1.6; color: #333;\">\n        <div style=\"background: #fff; padding: 20px; border: 1px solid #ddd; border-radius: 8px;\">\n            <h1 style=\"color: #d35400;\">🇮🇳 Daily Finance Byte</h1>\n            <p style=\"color: #7f8c8d; font-size: 0.9em;\">"

/-- Template text between the date and the chart block. -/
def tplB : String :=
  "</p>\n            <hr style=\"border: 0; border-top: 1px solid #eee;\">\n            "

/-- Template text between the chart block and the body. -/
def tplC : String := "\n            "

/-- Template text after the body (second rule and the footer). -/
def tplD : String :=
  "\n            <hr style=\"border: 0; border-top: 1px solid #eee;\">\n            <p style=\"font-size: 0.8em; color: #999; text-align: center;\">Generated by AI for Indian Markets.</p>\n        </div>\n    </body>\n    </html>\n    "

/-- The concatenation of the template pieces that stand between the date
slot and the body slot when the chart block is empty. -/
def tplBC : List Char := tplB.toList ++ tplC.toList

/-- The `final_html` f-string of `main`: `dateStr` stands for
`datetime.now().strftime("%d %B, %Y")`, `chart_html` is the (possibly
empty) chart block, and the body slot interpolates
`content_data.get('html_body')`, which renders as `"None"` when absent. -/
def composeFinalHtml (dateStr : String) (chart_html : String)
    (html_body : Option String) : String :=
  tplA ++ dateStr ++ tplB ++ chart_html ++ tplC ++ pyStr html_body ++ tplD

/-! ### The entry point (`main`) -/

/-- The configuration and external collaborators of one run: the
environment variables, the two `datetime.now()` formattings, and the
modelled external calls. -/
structure Env where
  sender : String
  recipient : String
  todayShort : String
  todayLong : String
  parseHistory : String → Option History
  serializeHistory : History → String
  mkPrompt : String → String → String
  generate : String → Option String
  parseContent : List Char → Option ContentData
  post : ChartPayload → Option (Option String)
  transport : SendRequest → Except String Unit

/-- The observable outcome of one run: the process exit code, the request
handed to the SMTP transport (`none` when no send was attempted), and the
final content of the history file. -/
structure RunResult where
  exitCode : Nat
  sentRequest : Option SendRequest
  store : Option String
deriving DecidableEq

/-- The `chart_url`/`chart_html` lines of `main`: the chart URL is looked
up only when a `chart_config` key is present, and the image block is
emitted only when a URL was obtained. -/
def mainChartHtml (env : Env) (content_data : ContentData) : String :=
  let chart_url : Option String :=
    match content_data.chart_config with
    | some cfg => get_chart_url env.post cfg
    | none => none
  match chart_url with
  | some url => imgBlockHtml url
  | none => ""

/-- The tail of `main()` once content was obtained: read the topic with
its `'Finance Topic'` fallback, compose `final_html`, send, and only on a
successful send append to the history file; a transport exception
propagates (non-zero exit, file untouched). -/
def mainRest (env : Env) (store0 : Option String) (history : History)
    (content_data : ContentData) : RunResult :=
  let topic := content_data.topic.getD "Finance Topic"
  let final_html := composeFinalHtml env.todayLong
    (mainChartHtml env content_data) content_data.html_body
  let r := send_email env.transport env.sender content_data.subject
    final_html env.recipient
  match r.2 with
  | Except.error _ => ⟨1, some r.1, store0⟩
  | Except.ok _ =>
    ⟨0, some r.1,
      some (save_history env.serializeHistory env.todayShort topic history).2⟩

/-- `main()`: load the history, generate content (a falsy/absent result
exits with code 1 before any send is attempted), then run the
composition/delivery tail `mainRest`; the stages `mainChartHtml` and
`mainRest` are, combined, line for line the body of `main()`. -/
def main (env : Env) (store0 : Option String) : RunResult :=
  let history := load_history env.parseHistory store0
  match get_content_from_llm env.generate env.parseContent env.mkPrompt history with
  | none => ⟨1, none, store0⟩
  | some content_data => mainRest env store0 history content_data

/-- The send request `main` builds for a given content object:
`send_email(content_data.get('subject'), final_html, EMAIL_RECIPIENT)`
with `final_html` composed from today's long-form date, the (possibly
empty) chart block, and the body field. -/
def mainReq (env : Env) (content_data : ContentData) : SendRequest :=
  mkSendRequest env.sender content_data.subject
    (composeFinalHtml env.todayLong (mainChartHtml env content_data)
      content_data.html_body)
    env.recipient

/-- The content `main` obtains for a given environment and initial store
(the composition of its first two lines). -/
def runContent (env : Env) (store0 : Option String) : Option ContentData :=
  get_content_from_llm env.generate env.parseContent env.mkPrompt
    (load_history env.parseHistory store0)

/-! ### Spec-side view of a fenced text (for the normalizer claims)

These definitions follow the specification's wording — "a leading fence,
with or without the `json` tag, and a trailing fence" around an interior —
so that the normalizer can be compared against them. -/

/-- Length of the leading fence: 7 when the text carries the `json` tag,
3 otherwise. -/
def fenceHeadLen (s : List Char) : Nat :=
  if isPrefixList jsonFenceChars s then 7 else 3

/-- The spec's notion of a wrapped text: after trimming, the text starts
with a fence (possibly tagged `json`), ends with a fence, and the two
fences do not overlap. -/
def specWrapped (t : List Char) : Bool :=
  let s := pystrip t
  isPrefixList fenceChars s && endsWithList fenceChars s &&
    decide (fenceHeadLen s + 3 ≤ s.length)

/-- The spec's interior of a wrapped text: what stands between the
leading fence and the trailing fence. -/
def specInterior (t : List Char) : List Char :=
  let s := pystrip t
  (s.drop (fenceHeadLen s)).take ((s.drop (fenceHeadLen s)).length - 3)

/-- The `<img` pattern whose absence marks a document without an image
block. -/
def imgPat : List Char := ['<', 'i', 'm', 'g']

/-! ### Concrete fixtures for the witnesses -/

/-- A history parser that always fails (every content is unparseable). -/
def parseHistNone : String → Option History := fun _ => none

/-- A toy serializer: the history's length, printed. -/
def serLen : History → String := fun h => toString h.length

/-- A generated content object with every field present except the chart. -/
def cdBasic : ContentData := ⟨some "T", some "S", some "B", none⟩

/-- A generated content object carrying a `chart_config`. -/
def cdChart : ContentData := ⟨some "T", some "S", some "B", some "CFG"⟩

/-- A generated content object with no `topic` field. -/
def cdNoTopic : ContentData := ⟨none, some "S", some "B", none⟩

/-- A run in which the generation call fails. -/
def envGenFail : Env :=
  ⟨"me@x.com", "a@x.com", "2026-10-12", "12 October, 2026",
   parseHistNone, serLen, fun _ _ => "p",
   fun _ => none, fun _ => some cdBasic,
   fun _ => none, fun _ => Except.ok ()⟩

/-- A run in which generation succeeds and the SMTP transport raises. -/
def envSendFail : Env :=
  ⟨"me@x.com", "a@x.com", "2026-10-12", "12 October, 2026",
   parseHistNone, serLen, fun _ _ => "p",
   fun _ => some "raw", fun _ => some cdBasic,
   fun _ => none, fun _ => Except.error "smtp down"⟩

/-- A run in which generation succeeds (with a chart config), every chart
call fails, and delivery succeeds. -/
def envChartFail : Env :=
  ⟨"me@x.com", "a@x.com", "2026-10-12", "12 October, 2026",
   parseHistNone, serLen, fun _ _ => "p",
   fun _ => some "raw", fun _ => some cdChart,
   fun _ => none, fun _ => Except.ok ()⟩

/-- A run in which the generated content lacks a `topic` field and
delivery succeeds. -/
def envNoTopic : Env :=
  ⟨"me@x.com", "a@x.com", "2026-10-12", "12 October, 2026",
   parseHistNone, serLen, fun _ _ => "p",
   fun _ => some "raw", fun _ => some cdNoTopic,
   fun _ => none, fun _ => Except.ok ()⟩

/-! ### Helper lemmas on the string primitives -/

theorem isPrefixList_iff (p s : List Char) :
    isPrefixList p s = true ↔ ∃ r, p ++ r = s := by
  induction p generalizing s with
  | nil =>
    constructor
    · intro _; exact ⟨s, rfl⟩
    · intro _; rfl
  | cons a as ih =>
    cases s with
    | nil =>
      constructor
      · intro h; exact absurd h (by simp [isPrefixList])
      · rintro ⟨r, hr⟩; simp at hr
    | cons b bs =>
      simp only [isPrefixList, Bool.and_eq_true, beq_iff_eq, ih]
      constructor
      · rintro ⟨rfl, r, rfl⟩; exact ⟨r, rfl⟩
      · rintro ⟨r, hr⟩
        simp only [List.cons_append, List.cons.injEq] at hr
        exact ⟨hr.1, r, hr.2⟩

theorem isPrefixList_self (l : List Char) : isPrefixList l l = true :=
  (isPrefixList_iff l l).mpr ⟨[], List.append_nil l⟩

theorem isPrefixList_append_self (p r : List Char) :
    isPrefixList p (p ++ r) = true :=
  (isPrefixList_iff p (p ++ r)).mpr ⟨r, rfl⟩

theorem isPrefixList_length_le {p s : List Char}
    (h : isPrefixList p s = true) : p.length ≤ s.length := by
  obtain ⟨r, rfl⟩ := (isPrefixList_iff p s).mp h
  simp

theorem isPrefixList_of_append_left {a b s : List Char}
    (h : isPrefixList (a ++ b) s = true) : isPrefixList a s = true := by
  obtain ⟨r, rfl⟩ := (isPrefixList_iff (a ++ b) s).mp h
  rw [List.append_assoc]
  exact isPrefixList_append_self a (b ++ r)

theorem isPrefixList_append_left_of_le {q a : List Char} (z : List Char)
    (hlen : q.length ≤ a.length) :
    isPrefixList q (a ++ z) = isPrefixList q a := by
  induction q generalizing a with
  | nil => rfl
  | cons x xs ih =>
    cases a with
    | nil => simp at hlen
    | cons y ys =>
      simp only [List.cons_append, isPrefixList]
      congr 1
      exact ih (a := ys) (by simpa using hlen)

theorem isPrefixList_append_drop {q s : List Char}
    (h : isPrefixList q s = true) : q ++ s.drop q.length = s := by
  obtain ⟨r, rfl⟩ := (isPrefixList_iff q s).mp h
  rw [List.drop_left]

theorem isPrefixList_append_cases (p t b : List Char)
    (h : isPrefixList p (t ++ b) = true) :
    isPrefixList p t = true ∨
      (isPrefixList t p = true ∧ isPrefixList (p.drop t.length) b = true) := by
  induction t generalizing p with
  | nil => right; exact ⟨rfl, by simpa using h⟩
  | cons u ts ih =>
    cases p with
    | nil => left; rfl
    | cons q ps =>
      simp only [List.cons_append, isPrefixList, Bool.and_eq_true, beq_iff_eq] at h
      obtain ⟨rfl, h2⟩ := h
      rcases ih ps h2 with h3 | ⟨h3, h4⟩
      · left; simp [isPrefixList, h3]
      · right
        refine ⟨by simp [isPrefixList, h3], ?_⟩
        simpa using h4

theorem endsWithList_iff (f s : List Char) :
    endsWithList f s = true ↔ ∃ u, u ++ f = s := by
  unfold endsWithList
  rw [isPrefixList_iff]
  constructor
  · rintro ⟨r, hr⟩
    refine ⟨r.reverse, ?_⟩
    have := congrArg List.reverse hr
    simpa using this
  · rintro ⟨u, rfl⟩
    exact ⟨u.reverse, by simp⟩

theorem endsWithList_append_self (f u : List Char) :
    endsWithList f (u ++ f) = true :=
  (endsWithList_iff f (u ++ f)).mpr ⟨u, rfl⟩

theorem endsWithList_drop {f s : List Char} (k : Nat)
    (h : endsWithList f s = true) (hk : k + f.length ≤ s.length) :
    endsWithList f (s.drop k) = true := by
  obtain ⟨u, rfl⟩ := (endsWithList_iff f s).mp h
  have hk' : k ≤ u.length := by
    simp only [List.length_append] at hk; omega
  rw [List.drop_append_of_le_length hk']
  exact endsWithList_append_self f (u.drop k)

theorem dropWhile_dropWhile (p : Char → Bool) (l : List Char) :
    (l.dropWhile p).dropWhile p = l.dropWhile p := by
  induction l with
  | nil => rfl
  | cons x xs ih =>
    by_cases h : p x
    · simp [List.dropWhile_cons, h, ih]
    · simp [List.dropWhile_cons, h]

theorem dropWhile_head_false (p : Char → Bool) {l : List Char} {x : Char}
    {xs : List Char} (h : l.dropWhile p = x :: xs) : p x = false := by
  induction l with
  | nil => cases h
  | cons y ys ih =>
    rw [List.dropWhile_cons] at h
    by_cases hy : p y
    · rw [if_pos hy] at h; exact ih h
    · rw [if_neg hy] at h
      injection h with h1 _
      subst h1
      simpa using hy

theorem strip_core (p : Char → Bool) (a : List Char)
    (hhead : a.dropWhile p = a) :
    ((a.reverse.dropWhile p).reverse).dropWhile p
      = (a.reverse.dropWhile p).reverse := by
  obtain ⟨u, hu⟩ : ∃ u, u ++ a.reverse.dropWhile p = a.reverse :=
    ⟨a.reverse.takeWhile p, by simp⟩
  have hb : (a.reverse.dropWhile p).reverse ++ u.reverse = a := by
    have := congrArg List.reverse hu
    simpa using this
  cases hcr : (a.reverse.dropWhile p).reverse with
  | nil => rfl
  | cons x xs =>
    have hax : x :: (xs ++ u.reverse) = a := by
      rw [← List.cons_append, ← hcr]
      exact hb
    have hax2 : a.dropWhile p = x :: (xs ++ u.reverse) := by
      rw [hhead]; exact hax.symm
    have hx : p x = false := dropWhile_head_false p hax2
    rw [List.dropWhile_cons, hx]
    simp

theorem pystrip_idem (l : List Char) : pystrip (pystrip l) = pystrip l := by
  have hhead : (l.dropWhile Char.isWhitespace).dropWhile Char.isWhitespace
      = l.dropWhile Char.isWhitespace := dropWhile_dropWhile _ l
  show pystrip
      (((l.dropWhile Char.isWhitespace).reverse.dropWhile Char.isWhitespace).reverse)
    = ((l.dropWhile Char.isWhitespace).reverse.dropWhile Char.isWhitespace).reverse
  unfold pystrip
  rw [strip_core Char.isWhitespace _ hhead, List.reverse_reverse,
    dropWhile_dropWhile]

theorem hasSub_of_tail (p u t : List Char) (h : isPrefixList p t = true) :
    hasSub p (u ++ t) = true := by
  induction u with
  | nil =>
    cases t with
    | nil => simpa [hasSub] using h
    | cons c cs => simp [hasSub, h]
  | cons x xs ih => simp [List.cons_append, hasSub, ih]

theorem hasSub_append_false (p a b : List Char)
    (h1 : ∀ t u, u ++ t = a → isPrefixList p (t ++ b) = false)
    (h2 : hasSub p b = false) : hasSub p (a ++ b) = false := by
  induction a with
  | nil => simpa using h2
  | cons x xs ih =>
    have hA : isPrefixList p ((x :: xs) ++ b) = false := h1 (x :: xs) [] rfl
    have hB : hasSub p (xs ++ b) = false :=
      ih (fun t u hu => h1 t (x :: u) (by rw [List.cons_append, hu]))
    show (isPrefixList p ((x :: xs) ++ b) || hasSub p (xs ++ b)) = false
    rw [hA, hB]
    rfl

theorem compose_safe (p a b : List Char)
    (ha : hasSub p a = false) (hb : hasSub p b = false)
    (hcut : ∀ t u, u ++ t = a → t ≠ [] → isPrefixList t p = true →
      isPrefixList (p.drop t.length) b = false) :
    hasSub p (a ++ b) = false := by
  apply hasSub_append_false p a b _ hb
  intro t u hu
  by_contra hcontra
  rw [Bool.not_eq_false] at hcontra
  rcases isPrefixList_append_cases p t b hcontra with h3 | ⟨h3, h4⟩
  · have := hasSub_of_tail p u t h3
    rw [hu, ha] at this
    cases this
  · by_cases ht : t = []
    · subst ht
      simp only [List.length_nil, List.drop_zero] at h4
      have := hasSub_of_tail p [] b h4
      rw [List.nil_append, hb] at this
      cases this
    · have := hcut t u hu ht h3
      rw [h4] at this
      cases this

theorem isPrefixList_imgPat_cases (t : List Char)
    (h : isPrefixList t imgPat = true) :
    t = [] ∨ t = ['<'] ∨ t = ['<', 'i'] ∨ t = ['<', 'i', 'm'] ∨ t = imgPat := by
  obtain ⟨r, hr⟩ := (isPrefixList_iff t imgPat).mp h
  rcases t with _ | ⟨a, _ | ⟨b, _ | ⟨c, _ | ⟨d, _ | ⟨e, ts⟩⟩⟩⟩⟩
  · left; rfl
  · simp only [imgPat, List.cons_append, List.nil_append, List.cons.injEq] at hr
    obtain ⟨rfl, -⟩ := hr
    right; left; rfl
  · simp only [imgPat, List.cons_append, List.nil_append, List.cons.injEq] at hr
    obtain ⟨rfl, rfl, -⟩ := hr
    right; right; left; rfl
  · simp only [imgPat, List.cons_append, List.nil_append, List.cons.injEq] at hr
    obtain ⟨rfl, rfl, rfl, -⟩ := hr
    right; right; right; left; rfl
  · simp only [imgPat, List.cons_append, List.nil_append, List.cons.injEq] at hr
    obtain ⟨rfl, rfl, rfl, rfl, -⟩ := hr
    right; right; right; right; rfl
  · exfalso
    have := congrArg List.length hr
    simp [imgPat] at this

theorem lastChar_clash (a t u : List Char) (hu : u ++ t = a) (x y : Char)
    (hx : a.getLast? = some x) (hty : t.getLast? = some y) (hxy : x ≠ y) :
    False := by
  have htne : t ≠ [] := by
    intro h; subst h; simp at hty
  have : a.getLast? = t.getLast? := by
    rw [← hu]
    exact List.getLast?_append_of_ne_nil _ htne
  rw [hx, hty] at this
  exact hxy (Option.some.inj this)

theorem str_toList_append (a b : String) :
    (a ++ b).toList = a.toList ++ b.toList := by
  cases a; cases b; rfl

theorem splitOnComma_ne_nil (l : List Char) : splitOnComma l ≠ [] := by
  cases l with
  | nil => simp [splitOnComma]
  | cons c cs =>
    unfold splitOnComma
    by_cases h : c = ','
    · rw [if_pos h]; simp
    · rw [if_neg h]
      cases hs : splitOnComma cs with
      | nil => simp
      | cons a as => simp

theorem splitOnComma_length (l : List Char) :
    (splitOnComma l).length = l.count ',' + 1 := by
  induction l with
  | nil => rfl
  | cons c cs ih =>
    unfold splitOnComma
    by_cases h : c = ','
    · rw [if_pos h]
      simp only [List.length_cons, ih, List.count_cons]
      simp [h]
    · rw [if_neg h]
      cases hs : splitOnComma cs with
      | nil => exact absurd hs (splitOnComma_ne_nil cs)
      | cons a as =>
        have h1 : ((c :: a) :: as).length = (a :: as).length := by simp
        rw [h1, ← hs, ih]
        simp only [List.count_cons]
        have : (',' == c) = false := by
          simp [Ne.symm h]
        simp [this]
        exact h

theorem main_content_none {env : Env} {store0 : Option String}
    (h : runContent env store0 = none) :
    main env store0 = ⟨1, none, store0⟩ := by
  unfold main
  unfold runContent at h
  dsimp only
  rw [h]

theorem main_content_some {env : Env} {store0 : Option String}
    {cd : ContentData} (h : runContent env store0 = some cd) :
    main env store0
      = mainRest env store0 (load_history env.parseHistory store0) cd := by
  unfold main
  unfold runContent at h
  dsimp only
  rw [h]

theorem mainRest_error {env : Env} {store0 : Option String}
    {history : History} {cd : ContentData} {e : String}
    (ht : env.transport (mainReq env cd) = Except.error e) :
    mainRest env store0 history cd = ⟨1, some (mainReq env cd), store0⟩ := by
  unfold mainRest send_email
  dsimp only
  have ht' : env.transport (mkSendRequest env.sender cd.subject
      (composeFinalHtml env.todayLong (mainChartHtml env cd) cd.html_body)
      env.recipient) = Except.error e := ht
  rw [ht']
  rfl

theorem mainRest_ok {env : Env} {store0 : Option String}
    {history : History} {cd : ContentData}
    (ht : env.transport (mainReq env cd) = Except.ok ()) :
    mainRest env store0 history cd
      = ⟨0, some (mainReq env cd),
          some (save_history env.serializeHistory env.todayShort
            (cd.topic.getD "Finance Topic") history).2⟩ := by
  unfold mainRest send_email
  dsimp only
  have ht' : env.transport (mkSendRequest env.sender cd.subject
      (composeFinalHtml env.todayLong (mainChartHtml env cd) cd.html_body)
      env.recipient) = Except.ok () := ht
  rw [ht']
  rfl

theorem composed_no_img (d bo : List Char)
    (hd : hasSub imgPat d = false) (hb : hasSub imgPat bo = false) :
    hasSub imgPat
      (tplA.toList ++ (d ++ (tplBC ++ (bo ++ tplD.toList)))) = false := by
  have h4 : hasSub imgPat (bo ++ tplD.toList) = false := by
    apply compose_safe _ _ _ hb (by decide)
    intro t u hu ht hpre
    rcases isPrefixList_imgPat_cases t hpre with rfl | rfl | rfl | rfl | rfl
    · exact absurd rfl ht
    · decide
    · decide
    · decide
    · exfalso
      have hh := hasSub_of_tail imgPat u imgPat (isPrefixList_self imgPat)
      rw [hu, hb] at hh
      cases hh
  have h3 : hasSub imgPat (tplBC ++ (bo ++ tplD.toList)) = false := by
    apply compose_safe _ _ _ (by decide) h4
    intro t u hu ht hpre
    rcases isPrefixList_imgPat_cases t hpre with rfl | rfl | rfl | rfl | rfl
    · exact absurd rfl ht
    · exact (lastChar_clash tplBC ['<'] u hu ' ' '<'
        (by decide) (by decide) (by decide)).elim
    · exact (lastChar_clash tplBC ['<', 'i'] u hu ' ' 'i'
        (by decide) (by decide) (by decide)).elim
    · exact (lastChar_clash tplBC ['<', 'i', 'm'] u hu ' ' 'm'
        (by decide) (by decide) (by decide)).elim
    · exact (lastChar_clash tplBC imgPat u hu ' ' 'g'
        (by decide) (by decide) (by decide)).elim
  have h2 : hasSub imgPat (d ++ (tplBC ++ (bo ++ tplD.toList))) = false := by
    apply compose_safe _ _ _ hd h3
    intro t u hu ht hpre
    rcases isPrefixList_imgPat_cases t hpre with rfl | rfl | rfl | rfl | rfl
    · exact absurd rfl ht
    · rw [isPrefixList_append_left_of_le _ (by decide)]
      decide
    · rw [isPrefixList_append_left_of_le _ (by decide)]
      decide
    · rw [isPrefixList_append_left_of_le _ (by decide)]
      decide
    · exfalso
      have hh := hasSub_of_tail imgPat u imgPat (isPrefixList_self imgPat)
      rw [hu, hd] at hh
      cases hh
  apply compose_safe _ _ _ (by decide) h2
  intro t u hu ht hpre
  rcases isPrefixList_imgPat_cases t hpre with rfl | rfl | rfl | rfl | rfl
  · exact absurd rfl ht
  · exact (lastChar_clash tplA.toList ['<'] u hu '>' '<'
      (by decide) (by decide) (by decide)).elim
  · exact (lastChar_clash tplA.toList ['<', 'i'] u hu '>' 'i'
      (by decide) (by decide) (by decide)).elim
  · exact (lastChar_clash tplA.toList ['<', 'i', 'm'] u hu '>' 'm'
      (by decide) (by decide) (by decide)).elim
  · exact (lastChar_clash tplA.toList imgPat u hu '>' 'g'
      (by decide) (by decide) (by decide)).elim

/-! ### The claims -/

/-- C1: for every history `h` and topic `t`, `save_history` produces and
persists a history of length `len h + 1` whose first `len h` records are
exactly those of `h`, in order, and whose last record is
`{date := today, topic := t}`, where `today` stands for
`datetime.now().strftime("%Y-%m-%d")`; the persisted file content is the
serialization of exactly that new history. -/
theorem C1_save_history_appends (serialize : History → String)
    (today topic : String) (history : History) :
    (save_history serialize today topic history).1.length = history.length + 1
    ∧ (save_history serialize today topic history).1.take history.length = history
    ∧ (save_history serialize today topic history).1.getLast? = some ⟨today, topic⟩
    ∧ (save_history serialize today topic history).2
        = serialize (save_history serialize today topic history).1 := by
  refine ⟨?_, ?_, ?_, rfl⟩
  · simp [save_history]
  · simp [save_history, List.take_left]
  · simp [save_history]

/-- C3: `load_history` returns `[]` when the history file is missing and
when its content does not parse (`parseHistory` returning `none` models a
`JSONDecodeError`); being a total Lean function it raises nothing in
either case. -/
theorem C3_load_history_fails_soft :
    (∀ parse : String → Option History, load_history parse none = [])
    ∧ (∀ (parse : String → Option History) (s : String), parse s = none →
        load_history parse (some s) = []) := by
  refine ⟨fun _ => rfl, fun parse s h => ?_⟩
  simp [load_history, h]

/-- Witness for C3: a concrete missing store and a concrete unparseable
store both load as the empty history. -/
theorem C3_witness :
    load_history parseHistNone none = []
    ∧ parseHistNone "garbage" = none
    ∧ load_history parseHistNone (some "garbage") = [] :=
  ⟨C3_load_history_fails_soft.1 parseHistNone, rfl,
    C3_load_history_fails_soft.2 parseHistNone "garbage" rfl⟩

/-- C6: the message built by `send_email` carries the sender's own
address in the visible `To` header (and in `From`), while the envelope
recipient list handed to `sendmail` is the full parsed recipient list, so
every parsed recipient is an envelope recipient without appearing in the
headers. -/
theorem C6_blind_delivery (transport : SendRequest → Except String Unit)
    (sender : String) (subject : Option String) (html to_email : String) :
    (send_email transport sender subject html to_email).1.toHeader = sender
    ∧ (send_email transport sender subject html to_email).1.fromHeader = sender
    ∧ (send_email transport sender subject html to_email).1.envelopeTo
        = parseRecipients to_email
    ∧ ∀ r ∈ parseRecipients to_email,
        r ∈ (send_email transport sender subject html to_email).1.envelopeTo :=
  ⟨rfl, rfl, rfl, fun _ hr => hr⟩

/-- C8: recipient parsing splits on every comma and trims each entry,
never filtering empty entries (the number of entries is always the number
of commas plus one); on `"a@x.com, b@y.com,c@z.com"` it yields exactly
the three trimmed addresses. -/
theorem C8_recipient_parsing :
    parseRecipients "a@x.com, b@y.com,c@z.com"
        = ["a@x.com", "b@y.com", "c@z.com"]
    ∧ ∀ s : String, (parseRecipients s).length = s.toList.count ',' + 1 := by
  refine ⟨by decide, fun s => ?_⟩
  unfold parseRecipients
  rw [List.length_map, splitOnComma_length]

/-- C9: composing the document with an absent `html_body` interpolates
the visible placeholder text `"None"` (Python's rendering of `None`) in
the body slot — the document equals the one composed with body `"None"`,
a non-empty string — and the masthead, date and footer parts are produced
exactly as usual. -/
theorem C9_missing_body_placeholder (dateStr chart_html : String) :
    composeFinalHtml dateStr chart_html none
      = composeFinalHtml dateStr chart_html (some "None")
    ∧ pyStr none = "None"
    ∧ ("None" : String) ≠ "" :=
  ⟨rfl, rfl, by decide⟩

/-- C4 counterexample: `"abc```"` (backticks written `\x60`) does not
begin with a leading fence, so by the claim it is not wrapped and clean
should return it trimmed and otherwise unchanged; the code instead strips
the trailing fence, returning `"abc"`. -/
theorem C4_counterexample :
    isPrefixList fenceChars (pystrip ("abc\x60\x60\x60").toList) = false
    ∧ clean_json_response ("abc\x60\x60\x60").toList
        ≠ pystrip ("abc\x60\x60\x60").toList
    ∧ clean_json_response ("abc\x60\x60\x60").toList = ("abc").toList := by
  refine ⟨by decide, by decide, by decide⟩

/-- C4 (amended): for every text that, after trimming, neither begins
with a fence nor ends with a fence, clean returns the trimmed input
unchanged — interior fence-like markers included.  (The amendment drops
the original claim's coverage of texts carrying a fence at only one end:
a lone leading or trailing fence is stripped by the code even when the
opposite fence is absent.) -/
theorem C4_not_fenced_trim_only (text : List Char)
    (hpre : isPrefixList fenceChars (pystrip text) = false)
    (hsuf : endsWithList fenceChars (pystrip text) = false) :
    clean_json_response text = pystrip text := by
  have hjson : isPrefixList jsonFenceChars (pystrip text) = false := by
    by_contra hc
    rw [Bool.not_eq_false] at hc
    rw [jsonFenceChars] at hc
    have := isPrefixList_of_append_left hc
    rw [hpre] at this
    cases this
  simp only [clean_json_response, hjson, hpre, hsuf, Bool.false_eq_true,
    if_false, pystrip_idem]

/-- Witness for C4 (amended): `" hello "` carries no fence at either end
and clean returns exactly its trimmed form. -/
theorem C4_witness :
    isPrefixList fenceChars (pystrip (" hello ").toList) = false
    ∧ endsWithList fenceChars (pystrip (" hello ").toList) = false
    ∧ clean_json_response (" hello ").toList = pystrip (" hello ").toList :=
  ⟨by decide, by decide, C4_not_fenced_trim_only _ (by decide) (by decide)⟩

/-- C5: for every text wrapped in a recognized fence marker — after
trimming it starts with a fence (with or without the `json` tag), ends
with a fence, and the fences do not overlap — clean returns exactly the
interior between the two fences, trimmed of surrounding whitespace and
otherwise unaltered. -/
theorem C5_fenced_interior (text : List Char)
    (hw : specWrapped text = true) :
    clean_json_response text = pystrip (specInterior text) := by
  unfold specWrapped at hw
  simp only [Bool.and_eq_true, decide_eq_true_eq] at hw
  obtain ⟨⟨hpre, hsuf⟩, hlen⟩ := hw
  by_cases hj : isPrefixList jsonFenceChars (pystrip text) = true
  · have hlen7 : 7 + 3 ≤ (pystrip text).length := by
      unfold fenceHeadLen at hlen
      rw [if_pos hj] at hlen
      exact hlen
    have hend : endsWithList fenceChars ((pystrip text).drop 7) = true := by
      apply endsWithList_drop 7 hsuf
      simpa [fenceChars] using hlen7
    simp only [clean_json_response, specInterior, fenceHeadLen, hj, hend,
      if_true]
  · rw [Bool.not_eq_true] at hj
    have hlen3 : 3 + 3 ≤ (pystrip text).length := by
      unfold fenceHeadLen at hlen
      rw [if_neg (by rw [hj]; exact Bool.false_ne_true)] at hlen
      exact hlen
    have hend : endsWithList fenceChars ((pystrip text).drop 3) = true := by
      apply endsWithList_drop 3 hsuf
      simpa [fenceChars] using hlen3
    simp only [clean_json_response, specInterior, fenceHeadLen, hj, hpre,
      hend, Bool.false_eq_true, if_false, if_true]

/-- Witness for C5: a `json`-tagged fenced text and an untagged fenced
text, each cleaned to its trimmed interior. -/
theorem C5_witness :
    specWrapped ("\x60\x60\x60json hi\x60\x60\x60").toList = true
    ∧ clean_json_response ("\x60\x60\x60json hi\x60\x60\x60").toList
        = pystrip (specInterior ("\x60\x60\x60json hi\x60\x60\x60").toList) :=
  ⟨by decide, C5_fenced_interior _ (by decide)⟩

/-- C2: the history store is written only after delivery succeeded.  If
content generation fails the run exits with code 1, the history file is
unchanged, and no send is attempted (`sentRequest = none`); if the
delivery call raises, the exception propagates (exit code 1) and the
history file is unchanged. -/
theorem C2_history_after_delivery (env : Env) (store0 : Option String) :
    (runContent env store0 = none → main env store0 = ⟨1, none, store0⟩)
    ∧ (∀ (r : SendRequest) (e : String),
        (main env store0).sentRequest = some r →
        env.transport r = Except.error e →
        main env store0 = ⟨1, some r, store0⟩) := by
  refine ⟨main_content_none, ?_⟩
  intro r e hr he
  cases hc : runContent env store0 with
  | none =>
    rw [main_content_none hc] at hr
    simp at hr
  | some cd =>
    rw [main_content_some hc] at hr ⊢
    cases ht : env.transport (mainReq env cd) with
    | error e2 =>
      rw [mainRest_error ht] at hr ⊢
      obtain rfl := Option.some.inj hr
      rfl
    | ok u =>
      cases u
      rw [mainRest_ok ht] at hr
      obtain rfl := Option.some.inj hr
      rw [ht] at he
      cases he

/-- Witness for C2: a run whose generation call fails leaves the store
untouched with no send, and a run whose SMTP transport raises leaves the
store untouched with exit code 1. -/
theorem C2_witness :
    main envGenFail (some "old") = ⟨1, none, some "old"⟩
    ∧ main envSendFail (some "old")
        = ⟨1, some (mainReq envSendFail cdBasic), some "old"⟩ := by
  constructor
  · exact (C2_history_after_delivery envGenFail (some "old")).1 (by decide)
  · exact (C2_history_after_delivery envSendFail (some "old")).2
      (mainReq envSendFail cdBasic) "smtp down"
      (by rw [@main_content_some envSendFail (some "old") cdBasic (by decide),
              mainRest_error rfl])
      rfl

/-- C10: when the generated content lacks a `topic` field the run does
not fail: the fallback `"Finance Topic"` is used, so after a successful
delivery the run exits with code 0 and the appended history record
carries the topic `"Finance Topic"`. -/
theorem C10_topic_fallback (env : Env) (store0 : Option String)
    (cd : ContentData) (hgen : runContent env store0 = some cd)
    (htopic : cd.topic = none)
    (hok : env.transport (mainReq env cd) = Except.ok ()) :
    (main env store0).exitCode = 0
    ∧ (main env store0).store
        = some (env.serializeHistory
            (load_history env.parseHistory store0
              ++ [⟨env.todayShort, "Finance Topic"⟩])) := by
  rw [main_content_some hgen, mainRest_ok hok]
  refine ⟨rfl, ?_⟩
  rw [htopic]
  rfl

/-- Witness for C10: a concrete run with a topicless content object and a
succeeding transport exits 0 and persists a one-record history. -/
theorem C10_witness :
    runContent envNoTopic none = some cdNoTopic
    ∧ cdNoTopic.topic = none
    ∧ (main envNoTopic none).exitCode = 0
    ∧ (main envNoTopic none).store = some "1" := by
  have h := C10_topic_fallback envNoTopic none cdNoTopic (by decide) rfl rfl
  exact ⟨by decide, rfl, h.1, by rw [h.2]; rfl⟩

/-- C7: when every chart call fails — by raised exception (network,
non-success status, non-JSON body) or by a response missing the `url`
field — `get_chart_url` returns `none` (it is a total function and never
raises), the composed document is the one with an empty chart slot and
contains no `<img` tag (given that neither the date text nor the body
text contains one), and the run still hands the message to the delivery
transport. -/
theorem C7_chart_best_effort (env : Env) (store0 : Option String)
    (cd : ContentData)
    (hgen : runContent env store0 = some cd)
    (hpost : ∀ p, env.post p = none ∨ env.post p = some none)
    (hd : hasSub imgPat env.todayLong.toList = false)
    (hb : hasSub imgPat (pyStr cd.html_body).toList = false) :
    (∀ cfg, get_chart_url env.post cfg = none)
    ∧ (main env store0).sentRequest
        = some (mkSendRequest env.sender cd.subject
            (composeFinalHtml env.todayLong "" cd.html_body) env.recipient)
    ∧ hasSub imgPat
        (composeFinalHtml env.todayLong "" cd.html_body).toList = false := by
  have hchart : ∀ cfg, get_chart_url env.post cfg = none := by
    intro cfg
    unfold get_chart_url
    rcases hpost (chartPayload cfg) with h | h <;> rw [h]
  have hch : mainChartHtml env cd = "" := by
    unfold mainChartHtml
    cases cd.chart_config with
    | none => rfl
    | some cfg =>
      dsimp only
      rw [hchart cfg]
  have hreq : mainReq env cd
      = mkSendRequest env.sender cd.subject
          (composeFinalHtml env.todayLong "" cd.html_body) env.recipient := by
    unfold mainReq
    rw [hch]
  refine ⟨hchart, ?_, ?_⟩
  · rw [main_content_some hgen]
    cases ht : env.transport (mainReq env cd) with
    | error e =>
      rw [mainRest_error ht, hreq]
    | ok u =>
      cases u
      rw [mainRest_ok ht, hreq]
  · have hconv : (composeFinalHtml env.todayLong "" cd.html_body).toList
        = tplA.toList ++ (env.todayLong.toList
            ++ (tplBC ++ ((pyStr cd.html_body).toList ++ tplD.toList))) := by
      have hnil : ("" : String).toList = [] := rfl
      unfold composeFinalHtml tplBC
      simp only [str_toList_append, hnil, List.append_assoc, List.nil_append]
    rw [hconv]
    exact composed_no_img _ _ hd hb

/-- Witness for C7: a concrete run whose chart calls all fail still
delivers, with the no-chart document, which contains no `<img` tag. -/
theorem C7_witness :
    runContent envChartFail none = some cdChart
    ∧ (main envChartFail none).sentRequest
        = some (mkSendRequest "me@x.com" (some "S")
            (composeFinalHtml "12 October, 2026" "" (some "B")) "a@x.com")
    ∧ hasSub imgPat
        (composeFinalHtml "12 October, 2026" "" (some "B")).toList = false := by
  have h := C7_chart_best_effort envChartFail none cdChart (by decide)
    (fun _ => Or.inl rfl) (by decide) (by decide)
  exact ⟨by decide, h.2.1, h.2.2⟩

end DailyFinanceMail
